import Mathlib

/-!
Verification of the video-info backend core pipeline (app.py).

We embed the request-handling logic of `get_video_info` shallowly:
raw yt-dlp format dictionaries become `RawFormat` records with optional
fields, the normalization loop becomes `normalizeOne`/`normalizeFormats`,
the sort+dedup+cap step becomes `sortFormats`/`dedupFormats`/`rankFormats`,
and the error branches become `processInfo` and `handleDownloadError`.
Python truthiness on optional numbers and strings is modelled explicitly
(`truthyNat`, `truthyStr`, `pyOrNat`).
-/

namespace VideoBackend

/-- Python truthiness of an optional integer: `None` and `0` are falsy. -/
def truthyNat : Option Nat → Bool
  | none => false
  | some n => n != 0

/-- Python truthiness of an optional string: `None` and `""` are falsy. -/
def truthyStr : Option String → Bool
  | none => false
  | some s => s != ""

/-- Python `a or b` on optional integers: `a` if truthy, else `b` verbatim. -/
def pyOrNat (a b : Option Nat) : Option Nat :=
  if truthyNat a then a else b

/-- One raw format dictionary as returned by the extraction collaborator.
Every field is optional (`none` models an absent key or a `None` value). -/
structure RawFormat where
  url : Option String := none
  ext : Option String := none
  vcodec : Option String := none
  acodec : Option String := none
  height : Option Nat := none
  abr : Option Nat := none
  format_note : Option String := none
  format_id : Option String := none
  filesize : Option Nat := none
  filesize_approx : Option Nat := none
  deriving DecidableEq

/-- One normalized format entry, mirroring the dictionary built in the
normalization loop (both a `size` and a `filesize` key are emitted). -/
structure NormFmt where
  ext : String
  quality : String
  size : Option Nat
  url : String
  format_id : Option String
  height : Option Nat
  filesize : Option Nat
  deriving DecidableEq

/-- Quality-label derivation, embedding lines 137-146 of app.py:
`format_note` if truthy, else `"<height>p"` if `height` truthy, else the
audio labels when `vcodec == "none"`, else `format_id` with default. -/
def qualityLabel (f : RawFormat) : String :=
  let q := f.format_note.getD ""
  if q != "" then q
  else if truthyNat f.height then toString (f.height.getD 0) ++ "p"
  else if f.vcodec == some "none" then
    if truthyNat f.abr then "Audio (" ++ toString (f.abr.getD 0) ++ "k)" else "Audio"
  else f.format_id.getD "Unknown"

/-- Normalization of one raw record (loop body, lines 126-156 of app.py):
skip when the URL is falsy, skip when both codecs are the string "none",
otherwise emit the normalized entry. -/
def normalizeOne (f : RawFormat) : Option NormFmt :=
  if !truthyStr f.url then none
  else if f.vcodec == some "none" && f.acodec == some "none" then none
  else some {
    ext := f.ext.getD "unknown",
    quality := qualityLabel f,
    size := pyOrNat f.filesize f.filesize_approx,
    url := f.url.getD "",
    format_id := f.format_id,
    height := f.height,
    filesize := pyOrNat f.filesize f.filesize_approx }

/-- Normalization of the whole raw format list, in input order. -/
def normalizeFormats (raws : List RawFormat) : List NormFmt :=
  raws.filterMap normalizeOne

/-- Sort key component: height with absent treated as 0. -/
def hKey (f : NormFmt) : Nat := f.height.getD 0

/-- Sort key component: the `filesize` entry with absent treated as 0. -/
def sKey (f : NormFmt) : Nat := f.filesize.getD 0

/-- The ordering used by the handler sort (lines 166-169 of app.py):
`a` precedes `b` when `a` ranks at least as high, i.e. higher height first,
then larger size, matching the ascending sort on `(-height, -filesize)`. -/
def fmtGE (a b : NormFmt) : Prop :=
  hKey b < hKey a ∨ (hKey a = hKey b ∧ sKey b ≤ sKey a)

instance : DecidableRel fmtGE := fun a b =>
  inferInstanceAs (Decidable (hKey b < hKey a ∨ (hKey a = hKey b ∧ sKey b ≤ sKey a)))

instance : IsTotal NormFmt fmtGE :=
  ⟨fun a b => by unfold fmtGE; omega⟩

instance : IsTrans NormFmt fmtGE :=
  ⟨fun a b c hab hbc => by unfold fmtGE at hab hbc ⊢; omega⟩

/-- The stable sort of the format list (Python `list.sort` is stable;
insertion sort with `fmtGE` places earlier elements before equal-keyed
later ones, which is the same stable order). -/
def sortFormats (l : List NormFmt) : List NormFmt :=
  l.insertionSort fmtGE

/-- The deduplication key string built at line 175 of app.py:
`f'\x7bf["quality"]\x7d_\x7bf["ext"]\x7d'`. -/
def dkey (f : NormFmt) : String := f.quality ++ "_" ++ f.ext

/-- The dedup loop (lines 172-178 of app.py) with its `seen_qualities` set,
modelled as the list of keys already seen. -/
def dedupAux : List String → List NormFmt → List NormFmt
  | _, [] => []
  | seen, f :: t =>
    if dkey f ∈ seen then dedupAux seen t
    else f :: dedupAux (dkey f :: seen) t

/-- Deduplication starting from an empty seen set. -/
def dedupFormats (l : List NormFmt) : List NormFmt :=
  dedupAux [] l

/-- The full Deduplicator/Ranker: sort, dedup, cap at 10 (lines 164-181). -/
def rankFormats (l : List NormFmt) : List NormFmt :=
  (dedupFormats (sortFormats l)).take 10

/-- A classified error response: code, message, HTTP status. -/
structure ErrResp where
  code : String
  msg : String
  status : Nat
  deriving DecidableEq

/-- The successful response payload (lines 183-188 of app.py). -/
structure Payload where
  title : String
  thumbnail : String
  formats : List NormFmt
  url : String
  deriving DecidableEq

/-- Outcome of a request that reached extraction: success (HTTP 200) or a
classified failure. -/
inductive Resp where
  | success : Payload → Resp
  | failure : ErrResp → Resp
  deriving DecidableEq

/-- Extraction result consumed by the handler: title, thumbnail and the raw
format list (absent `formats` key yields the empty list). -/
structure InfoDict where
  title : Option String := none
  thumbnail : Option String := none
  formats : List RawFormat := []
  deriving DecidableEq

/-- The handler logic after a successful extraction (lines 111-191 of
app.py): empty raw list, empty normalized list, or the ranked payload. -/
def processInfo (videoUrl : String) (info : InfoDict) : Resp :=
  if info.formats.isEmpty then
    .failure ⟨"error_fetch_failed", "No video formats available", 400⟩
  else
    let fmts := normalizeFormats info.formats
    if fmts.isEmpty then
      .failure ⟨"error_fetch_failed", "No downloadable formats found", 400⟩
    else
      .success ⟨info.title.getD "Unknown Title", info.thumbnail.getD "",
        rankFormats fmts, videoUrl⟩

/-- Lower-casing of a string, character by character (Python `str.lower`). -/
def lowerStr (s : String) : String := ⟨s.data.map Char.toLower⟩

/-- Whether the first character list starts the second one. -/
def startsWithCL : List Char → List Char → Bool
  | [], _ => true
  | _ :: _, [] => false
  | a :: as, b :: bs => a == b && startsWithCL as bs

/-- Whether the needle occurs as a contiguous run of the haystack. -/
def containsCL (needle : List Char) : List Char → Bool
  | [] => startsWithCL needle []
  | c :: cs => startsWithCL needle (c :: cs) || containsCL needle cs

/-- Python `needle in hay` on strings. -/
def containsStr (needle hay : String) : Bool :=
  containsCL needle.data hay.data

/-- Classification of an extraction failure detail string
(lines 193-212 of app.py). -/
def handleDownloadError (errorMessage : String) : ErrResp :=
  if containsStr "Private video" errorMessage
      || containsStr "unavailable" (lowerStr errorMessage) then
    ⟨"error_fetch_failed", "Video is private or unavailable", 400⟩
  else if containsStr "not found" (lowerStr errorMessage) then
    ⟨"error_fetch_failed", "Video not found", 400⟩
  else
    ⟨"error_fetch_failed", "Could not process video: " ++ errorMessage, 400⟩

/-- An extraction result with an empty raw format list. -/
def emptyInfo : InfoDict := { title := some "T", thumbnail := some "th", formats := [] }

/-- C1: the claim says an empty raw-format list yields the message
"No downloadable formats found"; at a concrete request the code instead
answers 400 error_fetch_failed with "No video formats available". -/
theorem C1_counterexample :
    processInfo "https://www.youtube.com/watch" emptyInfo =
      .failure ⟨"error_fetch_failed", "No video formats available", 400⟩
    ∧ ("No video formats available" : String) ≠ "No downloadable formats found" := by
  constructor
  · rfl
  · decide

/-- C1 (amended): when extraction succeeds but returns an empty list of raw
format records, the response is 400 error_fetch_failed with message exactly
"No video formats available". -/
theorem C1_empty_raw_formats (u : String) (info : InfoDict)
    (h : info.formats = []) :
    processInfo u info =
      .failure ⟨"error_fetch_failed", "No video formats available", 400⟩ := by
  unfold processInfo
  rw [h]
  rfl

/-- C1 witness: the amended theorem applied at a concrete request. -/
theorem C1_witness :
    processInfo "https://youtu.be/x" emptyInfo =
      .failure ⟨"error_fetch_failed", "No video formats available", 400⟩ :=
  C1_empty_raw_formats "https://youtu.be/x" emptyInfo rfl

/-- C4: the claim says a detail containing "private" case-insensitively is
answered "Video is private or unavailable"; the code only matches the exact
string "Private video" (case-sensitively) or "unavailable", so the detail
"This video is private" falls through to the generic branch. -/
theorem C4_counterexample :
    containsStr "private" (lowerStr "This video is private") = true
    ∧ handleDownloadError "This video is private" =
        ⟨"error_fetch_failed",
          "Could not process video: This video is private", 400⟩
    ∧ ("Could not process video: This video is private" : String) ≠
        "Video is private or unavailable" := by
  refine ⟨by decide, rfl, by decide⟩

/-- C4 (amended): when the detail contains the exact string "Private video"
(case-sensitively) or contains "unavailable" case-insensitively, the
response is 400 error_fetch_failed with message exactly
"Video is private or unavailable". -/
theorem C4_private_or_unavailable (msg : String)
    (h : containsStr "Private video" msg = true
        ∨ containsStr "unavailable" (lowerStr msg) = true) :
    handleDownloadError msg =
      ⟨"error_fetch_failed", "Video is private or unavailable", 400⟩ := by
  unfold handleDownloadError
  rcases h with h | h <;> simp [h]

/-- C4 witness: the amended theorem applied at the detail "Private video". -/
theorem C4_witness :
    handleDownloadError "Private video" =
      ⟨"error_fetch_failed", "Video is private or unavailable", 400⟩ :=
  C4_private_or_unavailable "Private video" (Or.inl (by decide))

/-- C8: the claim says an unmatched detail string is returned as the message
(with any "ERROR: " marker stripped from its front); at the detail "boom"
the code instead prepends "Could not process video: " and strips nothing. -/
theorem C8_counterexample :
    containsStr "Private video" "boom" = false
    ∧ containsStr "unavailable" (lowerStr "boom") = false
    ∧ containsStr "not found" (lowerStr "boom") = false
    ∧ handleDownloadError "boom" =
        ⟨"error_fetch_failed", "Could not process video: boom", 400⟩
    ∧ ("Could not process video: boom" : String) ≠ "boom" := by
  refine ⟨by decide, by decide, by decide, rfl, by decide⟩

/-- C8 (amended): when the detail matches neither the private/unavailable
rule nor the not-found rule, the response is 400 error_fetch_failed and the
message is "Could not process video: " followed by the adapter detail
unchanged (nothing is stripped). -/
theorem C8_other_errors (msg : String)
    (h1 : containsStr "Private video" msg = false)
    (h2 : containsStr "unavailable" (lowerStr msg) = false)
    (h3 : containsStr "not found" (lowerStr msg) = false) :
    handleDownloadError msg =
      ⟨"error_fetch_failed", "Could not process video: " ++ msg, 400⟩ := by
  unfold handleDownloadError
  simp [h1, h2, h3]

/-- C8 witness: the amended theorem applied at the detail "boom". -/
theorem C8_witness :
    handleDownloadError "boom" =
      ⟨"error_fetch_failed", "Could not process video: " ++ "boom", 400⟩ :=
  C8_other_errors "boom" (by decide) (by decide) (by decide)

/-- A raw record with an exact file size of 0 and an approximate size. -/
def rSizeZero : RawFormat :=
  { url := some "u", ext := some "mp4", vcodec := some "avc1",
    acodec := some "aac", height := some 720, filesize := some 0,
    filesize_approx := some 5 }

/-- C6: the claim says the emitted size equals the exact file size whenever
one is present; with an exact size of 0 the code falls back to the
approximate size instead. -/
theorem C6_counterexample :
    rSizeZero.filesize = some 0
    ∧ (normalizeOne rSizeZero).map NormFmt.size = some (some 5)
    ∧ some (some 5) ≠ some (some (0 : Nat)) := by
  refine ⟨rfl, rfl, by decide⟩

/-- C6 (amended): for every record that is not skipped, the emitted size
equals the exact file size whenever it is present and nonzero; when the
exact file size is absent or zero, the emitted size is the approximate
file size field verbatim (hence absent when both are absent). -/
theorem C6_size_selection (r : RawFormat) (nf : NormFmt)
    (h : normalizeOne r = some nf) :
    (∀ n, r.filesize = some n → n ≠ 0 → nf.size = some n)
    ∧ ((r.filesize = none ∨ r.filesize = some 0) →
        nf.size = r.filesize_approx) := by
  have hsize : nf.size = pyOrNat r.filesize r.filesize_approx := by
    unfold normalizeOne at h
    split at h
    · exact absurd h (by simp)
    · split at h
      · exact absurd h (by simp)
      · cases h
        rfl
  constructor
  · intro n hn hnz
    rw [hsize, pyOrNat, hn]
    simp [truthyNat, hnz]
  · intro hcase
    rcases hcase with hc | hc <;> rw [hsize, pyOrNat, hc] <;> simp [truthyNat]

/-- A raw record with a truthy exact file size. -/
def rSizeExact : RawFormat :=
  { url := some "u", ext := some "mp4", vcodec := some "avc1",
    acodec := some "aac", height := some 720, format_note := some "720p",
    format_id := some "22", filesize := some 7 }

/-- The normalized form of `rSizeExact`. -/
def nfSizeExact : NormFmt :=
  { ext := "mp4", quality := "720p", size := some 7, url := "u",
    format_id := some "22", height := some 720, filesize := some 7 }

/-- A raw record with no exact file size and an approximate size. -/
def rSizeApprox : RawFormat :=
  { url := some "w", vcodec := some "avc1", acodec := some "aac",
    filesize := none, filesize_approx := some 9 }

/-- The normalized form of `rSizeApprox`. -/
def nfSizeApprox : NormFmt :=
  { ext := "unknown", quality := "Unknown", size := some 9, url := "w",
    format_id := none, height := none, filesize := some 9 }

/-- C6 witness: the amended theorem applied at a concrete record with a
nonzero exact size and at one with an absent exact size. -/
theorem C6_witness :
    nfSizeExact.size = some 7 ∧ nfSizeApprox.size = some 9 := by
  constructor
  · exact (C6_size_selection rSizeExact nfSizeExact rfl).1 7 rfl (by decide)
  · have h9 := (C6_size_selection rSizeApprox nfSizeApprox rfl).2 (Or.inl rfl)
    simpa using h9

/-- A raw record with no quality note, a height of 0 and a format id. -/
def rHeightZero : RawFormat :=
  { url := some "u", ext := some "mp4", vcodec := some "avc1",
    acodec := some "aac", height := some 0, format_id := some "fid99" }

/-- C3: the claim says a record with no quality note and a present height
gets the label "<height>p"; with the height 0 the code skips the height
branch (Python truthiness) and uses the format id instead. -/
theorem C3_counterexample :
    rHeightZero.format_note = none
    ∧ rHeightZero.height = some 0
    ∧ qualityLabel rHeightZero = "fid99"
    ∧ ("fid99" : String) ≠ "0p" := by
  refine ⟨rfl, rfl, rfl, by decide⟩

/-- Clause (e) of the amended precedence: the format identifier when
present, else "Unknown". -/
def labelSpecId (r : RawFormat) : String :=
  match r.format_id with
  | some fid => fid
  | none => "Unknown"

/-- Clauses (c)-(d) of the amended precedence: the audio labels when the
record's video codec tag is the sentinel "none". -/
def labelSpecAudio (r : RawFormat) : String :=
  if r.vcodec = some "none" then
    match r.abr with
    | some a => if a = 0 then "Audio" else "Audio (" ++ toString a ++ "k)"
    | none => "Audio"
  else labelSpecId r

/-- Clause (b) of the amended precedence: "<height>p" for a present,
nonzero height. -/
def labelSpecHeight (r : RawFormat) : String :=
  match r.height with
  | some h => if h = 0 then labelSpecAudio r else toString h ++ "p"
  | none => labelSpecAudio r

/-- The amended quality-label precedence, written clause by clause:
(a) a present non-empty quality note; (b) else "<height>p" for a present
nonzero height; (c) else "Audio (<bitrate>k)" when the video codec tag is
"none" and a nonzero bitrate is present; (d) else "Audio" when the video
codec tag is "none"; (e) else the format identifier, defaulting to
"Unknown". -/
def qualityLabelSpec (r : RawFormat) : String :=
  match r.format_note with
  | some s => if s = "" then labelSpecHeight r else s
  | none => labelSpecHeight r

/-- C3 (amended): the derived quality label follows the precedence of
`qualityLabelSpec`: note if present and non-empty, else "<height>p" for a
present nonzero height, else the audio labels for a "none" video codec
(with the bitrate shown only when present and nonzero), else the format
identifier with default "Unknown". -/
theorem C3_quality_precedence (r : RawFormat) :
    qualityLabel r = qualityLabelSpec r := by
  unfold qualityLabel qualityLabelSpec labelSpecHeight labelSpecAudio labelSpecId
  rcases r with ⟨url, ext, vc, ac, h, abr, note, fid, fs, fsa⟩
  cases note <;> cases h <;> cases abr <;> cases fid <;>
    simp [truthyNat, Option.getD]

/-- A normalized entry with quality "a_b" and extension "c". -/
def fKeyLeft : NormFmt :=
  { ext := "c", quality := "a_b", size := none, url := "u1",
    format_id := none, height := none, filesize := none }

/-- A normalized entry with quality "a" and extension "b_c". -/
def fKeyRight : NormFmt :=
  { ext := "b_c", quality := "a", size := none, url := "u2",
    format_id := none, height := none, filesize := none }

/-- C2: the claim says an entry is discarded only when its (quality,
extension) pair equals an earlier entry's pair; the code keys on the joined
string quality ++ "_" ++ ext, so the pairs ("a_b","c") and ("a","b_c"),
although distinct, share the key "a_b_c" and the second entry is
discarded. -/
theorem C2_counterexample :
    dedupFormats [fKeyLeft, fKeyRight] = [fKeyLeft]
    ∧ ¬(fKeyRight.quality = fKeyLeft.quality ∧ fKeyRight.ext = fKeyLeft.ext) := by
  refine ⟨by decide, by decide⟩

/-- Deduplication as the amended spec words it: keep each entry and drop
every later entry carrying the same joined key string. -/
def dedupSpecByKey : List NormFmt → List NormFmt
  | [] => []
  | a :: t => a :: dedupSpecByKey (t.filter (fun b => dkey b != dkey a))
termination_by l => l.length
decreasing_by
  simp only [List.length_cons]
  exact Nat.lt_succ_of_le (List.length_filter_le _ _)

/-- The seen-set dedup loop agrees with the filter formulation once the
entries whose keys are already seen are removed. -/
theorem dedupAux_eq_spec (l : List NormFmt) (seen : List String) :
    dedupAux seen l =
      dedupSpecByKey (l.filter (fun b => !(decide (dkey b ∈ seen)))) := by
  induction l generalizing seen with
  | nil => simp [dedupAux, dedupSpecByKey]
  | cons f t ih =>
    by_cases hmem : dkey f ∈ seen
    · have h1 : List.filter (fun b => !decide (dkey b ∈ seen)) (f :: t)
          = List.filter (fun b => !decide (dkey b ∈ seen)) t := by
        simp [List.filter_cons, hmem]
      rw [dedupAux, if_pos hmem, h1]
      exact ih seen
    · have h1 : List.filter (fun b => !decide (dkey b ∈ seen)) (f :: t)
          = f :: List.filter (fun b => !decide (dkey b ∈ seen)) t := by
        simp [List.filter_cons, hmem]
      rw [dedupAux, if_neg hmem, h1]
      simp only [dedupSpecByKey]
      rw [ih (dkey f :: seen), List.filter_filter]
      congr 1
      congr 1
      apply List.filter_congr
      intro b _
      by_cases hb : dkey b = dkey f <;> by_cases hbs : dkey b ∈ seen <;>
        simp [hb, hbs, List.mem_cons]

/-- C2 (amended): the deduplication step collapses two entries if and only
if they share the joined key string quality ++ "_" ++ ext: after sorting,
the first occurrence of each key string is kept and every later entry with
the same key string is discarded, so entries with distinct (quality,
extension) pairs may still be collapsed when their joined keys coincide. -/
theorem C2_dedup_by_key_string (l : List NormFmt) :
    dedupFormats l = dedupSpecByKey l := by
  have h := dedupAux_eq_spec l []
  simpa [dedupFormats] using h

/-- Entries with equal sort keys are mutually `fmtGE`. -/
theorem fmtGE_of_key_eq {a b : NormFmt}
    (h : (hKey a, sKey a) = (hKey b, sKey b)) : fmtGE a b := by
  unfold fmtGE
  rw [Prod.mk.injEq] at h
  omega

/-- Inserting an entry adds it at the front of the filtered slice of its own
sort key and leaves every other key slice unchanged. -/
theorem filter_key_orderedInsert (k : Nat × Nat) (a : NormFmt)
    (l : List NormFmt) :
    (l.orderedInsert fmtGE a).filter (fun f => decide ((hKey f, sKey f) = k))
      = if (hKey a, sKey a) = k
        then a :: l.filter (fun f => decide ((hKey f, sKey f) = k))
        else l.filter (fun f => decide ((hKey f, sKey f) = k)) := by
  induction l with
  | nil =>
    by_cases h : (hKey a, sKey a) = k <;>
      simp [List.orderedInsert, List.filter_cons, h]
  | cons b t ih =>
    by_cases hab : fmtGE a b
    · rw [List.orderedInsert, if_pos hab]
      by_cases ha : (hKey a, sKey a) = k <;>
        simp [List.filter_cons, ha]
    · rw [List.orderedInsert, if_neg hab]
      by_cases ha : (hKey a, sKey a) = k
      · have hb : ¬((hKey b, sKey b) = k) := by
          intro hbk
          exact hab (fmtGE_of_key_eq (ha.trans hbk.symm))
        simp [List.filter_cons, ha, hb, ih]
      · by_cases hb : (hKey b, sKey b) = k <;>
          simp [List.filter_cons, ha, hb, ih]

/-- C5: the ranking sort is a permutation of its input, is ordered by height
descending then size descending (absent values as 0, the order `fmtGE`
declared in this file), and is stable: the subsequence of entries sharing
any fixed (height, size) key is exactly the input subsequence. -/
theorem C5_sort_key_stable (l : List NormFmt) :
    (sortFormats l).Perm l
    ∧ (sortFormats l).Sorted fmtGE
    ∧ ∀ k : Nat × Nat,
        (sortFormats l).filter (fun f => decide ((hKey f, sKey f) = k))
          = l.filter (fun f => decide ((hKey f, sKey f) = k)) := by
  refine ⟨List.perm_insertionSort fmtGE l, List.sorted_insertionSort fmtGE l, ?_⟩
  intro k
  induction l with
  | nil => rfl
  | cons a t ih =>
    have ih2 : List.filter (fun f => decide ((hKey f, sKey f) = k))
        (List.insertionSort fmtGE t)
        = List.filter (fun f => decide ((hKey f, sKey f) = k)) t := ih
    show (List.orderedInsert fmtGE a (List.insertionSort fmtGE t)).filter _ = _
    rw [filter_key_orderedInsert k a (List.insertionSort fmtGE t)]
    by_cases ha : (hKey a, sKey a) = k <;>
      simp [List.filter_cons, ha, ih2]

/-- An entry surviving the dedup loop has a key outside the seen set. -/
theorem mem_dedupAux_not_seen (a : NormFmt) (l : List NormFmt) :
    ∀ seen, a ∈ dedupAux seen l → dkey a ∉ seen := by
  induction l with
  | nil =>
    intro seen h
    simp [dedupAux] at h
  | cons f t ih =>
    intro seen h
    by_cases hmem : dkey f ∈ seen
    · rw [dedupAux, if_pos hmem] at h
      exact ih seen h
    · rw [dedupAux, if_neg hmem] at h
      rcases List.mem_cons.mp h with rfl | h2
      · exact hmem
      · intro hs
        exact ih (dkey f :: seen) h2 (List.mem_cons_of_mem _ hs)

/-- The dedup loop emits pairwise-distinct keys. -/
theorem dedupAux_pairwise (l : List NormFmt) :
    ∀ seen, (dedupAux seen l).Pairwise (fun a b => dkey a ≠ dkey b) := by
  induction l with
  | nil =>
    intro seen
    simp [dedupAux]
  | cons f t ih =>
    intro seen
    by_cases hmem : dkey f ∈ seen
    · rw [dedupAux, if_pos hmem]
      exact ih seen
    · rw [dedupAux, if_neg hmem]
      refine List.Pairwise.cons ?_ (ih (dkey f :: seen))
      intro b hb heq
      have hnot := mem_dedupAux_not_seen b t (dkey f :: seen) hb
      exact hnot (by rw [← heq]; exact List.mem_cons_self _ _)

/-- The dedup loop only removes entries. -/
theorem dedupAux_sublist (l : List NormFmt) :
    ∀ seen, List.Sublist (dedupAux seen l) l := by
  induction l with
  | nil =>
    intro seen
    simp [dedupAux]
  | cons f t ih =>
    intro seen
    by_cases hmem : dkey f ∈ seen
    · rw [dedupAux, if_pos hmem]
      exact (ih seen).cons f
    · rw [dedupAux, if_neg hmem]
      exact (ih (dkey f :: seen)).cons₂ f

/-- On a list whose keys are pairwise distinct and disjoint from the seen
set, the dedup loop is the identity. -/
theorem dedupAux_eq_self (l : List NormFmt) :
    ∀ seen, l.Pairwise (fun a b => dkey a ≠ dkey b) →
      (∀ a ∈ l, dkey a ∉ seen) → dedupAux seen l = l := by
  induction l with
  | nil =>
    intro seen _ _
    rfl
  | cons f t ih =>
    intro seen hp hs
    have hmem : dkey f ∉ seen := hs f (List.mem_cons_self f t)
    rw [dedupAux, if_neg hmem]
    rcases List.pairwise_cons.mp hp with ⟨hf, ht⟩
    congr 1
    apply ih (dkey f :: seen) ht
    intro a ha hin
    rcases List.mem_cons.mp hin with heq | hseen
    · exact hf a ha heq.symm
    · exact hs a (List.mem_cons_of_mem f ha) hseen

/-- C7: the returned formats list of every successful request has at most 10
entries and no two of them share the same (quality label, extension)
pair. -/
theorem C7_output_invariant (raws : List RawFormat) :
    (rankFormats (normalizeFormats raws)).length ≤ 10
    ∧ (rankFormats (normalizeFormats raws)).Pairwise
        (fun a b => ¬(a.quality = b.quality ∧ a.ext = b.ext)) := by
  constructor
  · exact List.length_take_le 10 _
  · have hpw := dedupAux_pairwise (sortFormats (normalizeFormats raws)) []
    have hsub : List.Sublist (rankFormats (normalizeFormats raws))
        (dedupAux [] (sortFormats (normalizeFormats raws))) :=
      List.take_sublist 10 _
    refine (List.Pairwise.sublist hsub hpw).imp ?_
    intro a b hne hq
    exact hne (by rw [dkey, dkey, hq.1, hq.2])

/-- C9: the Deduplicator/Ranker is idempotent: sorting, deduplicating and
truncating its own output returns it unchanged. -/
theorem C9_rank_idempotent (l : List NormFmt) :
    rankFormats (rankFormats l) = rankFormats l := by
  have hs : (sortFormats l).Sorted fmtGE := List.sorted_insertionSort fmtGE l
  have hd_sorted : (dedupAux [] (sortFormats l)).Sorted fmtGE :=
    List.Pairwise.sublist (dedupAux_sublist (sortFormats l) []) hs
  have hd_pw := dedupAux_pairwise (sortFormats l) []
  have ht_sorted : ((dedupAux [] (sortFormats l)).take 10).Sorted fmtGE :=
    List.Pairwise.sublist (List.take_sublist 10 _) hd_sorted
  have ht_pw : ((dedupAux [] (sortFormats l)).take 10).Pairwise
      (fun a b => dkey a ≠ dkey b) :=
    List.Pairwise.sublist (List.take_sublist 10 _) hd_pw
  have h1 : sortFormats ((dedupAux [] (sortFormats l)).take 10)
      = (dedupAux [] (sortFormats l)).take 10 :=
    ht_sorted.insertionSort_eq
  have h2 : dedupAux [] ((dedupAux [] (sortFormats l)).take 10)
      = (dedupAux [] (sortFormats l)).take 10 :=
    dedupAux_eq_self _ [] ht_pw (by intro a _ h; simp at h)
  have h3 : ((dedupAux [] (sortFormats l)).take 10).take 10
      = (dedupAux [] (sortFormats l)).take 10 :=
    List.take_of_length_le (List.length_take_le 10 _)
  show (dedupAux [] (sortFormats ((dedupAux [] (sortFormats l)).take 10))).take 10
      = (dedupAux [] (sortFormats l)).take 10
  rw [h1, h2, h3]

/-- C10: every entry in the returned formats list carries a `filesize` field
equal to its `size` field. -/
theorem C10_filesize_eq_size (raws : List RawFormat) (f : NormFmt)
    (h : f ∈ rankFormats (normalizeFormats raws)) :
    f.filesize = f.size := by
  have h1 : f ∈ dedupAux [] (sortFormats (normalizeFormats raws)) :=
    List.take_subset 10 _ h
  have h2 : f ∈ sortFormats (normalizeFormats raws) :=
    (dedupAux_sublist _ []).subset h1
  have h3 : f ∈ normalizeFormats raws :=
    (List.perm_insertionSort fmtGE _).subset h2
  rcases List.mem_filterMap.mp h3 with ⟨r, _, hr⟩
  unfold normalizeOne at hr
  split at hr
  · exact absurd hr (by simp)
  · split at hr
    · exact absurd hr (by simp)
    · cases hr
      rfl

/-- C10 witness: the theorem applied to the output of a one-record
request. -/
theorem C10_witness : nfSizeExact.filesize = nfSizeExact.size :=
  C10_filesize_eq_size [rSizeExact] nfSizeExact (by decide)

end VideoBackend
